import Mathlib

/-!
A shallow embedding of the reconciliation core of cozystack/local-ccm
(`pkg/node/updater.go`, `pkg/detector` and the `main` reconcile loop).

The Go code keeps node addresses in a `map[v1.NodeAddressType]string`.
Here that map is represented as an association list of `NodeAddress`
entries with pairwise-distinct types; `mapInsert`, `mapDelete` and
`mapGet` model the Go map write, `delete` and read.  Go map iteration
order is unspecified, so the order in which the map is converted back to
a slice carries no meaning; every property stated below is insensitive
to that order.  Kubernetes API calls are modelled by returning the
patched node together with the list of patches that would be issued;
route resolution (`DetectIP` callers) is an oracle function
`String → Except String String`.
-/

namespace LocalCCM

/-- `v1.NodeAddress`: an address `Type` (a string enum) and an `Address`
value, as read from `node.Status.Addresses`. -/
structure NodeAddress where
  type : String
  address : String
deriving DecidableEq, Repr

/-- `v1.Taint`, restricted to the fields the program touches. -/
structure Taint where
  key : String
  value : String
  effect : String
deriving DecidableEq, Repr

/-- The slice of the Kubernetes node object the program reads and
writes: `node.Status.Addresses` and `node.Spec.Taints`. -/
structure Node where
  addresses : List NodeAddress
  taints : List Taint
deriving DecidableEq, Repr

/-- `TaintKey` constant from `pkg/node/updater.go`. -/
def TaintKey : String := "node.cloudprovider.kubernetes.io/uninitialized"

/-- `v1.NodeInternalIP`. -/
def NodeInternalIP : String := "InternalIP"

/-- `v1.NodeExternalIP`. -/
def NodeExternalIP : String := "ExternalIP"

/-- A Kubernetes patch the program would issue: `UpdateAddresses`
replaces `/status/addresses`, `RemoveTaint` replaces `/spec/taints`. -/
inductive Patch where
  | setAddresses (a : List NodeAddress)
  | setTaints (t : List Taint)
deriving DecidableEq, Repr

/-- Does the address map have an entry of type `k`? -/
def hasType (m : List NodeAddress) (k : String) : Bool :=
  m.any (fun a => a.type = k)

/-- Go map read `m[k]` (as an `Option`, i.e. the comma-ok form). -/
def mapGet (m : List NodeAddress) (k : String) : Option String :=
  (m.find? (fun a => a.type = k)).map NodeAddress.address

/-- Go map write `m[k] = v`: replace the entry of type `k` in place, or
append a fresh entry. -/
def mapInsert (m : List NodeAddress) (k v : String) : List NodeAddress :=
  if hasType m k then m.map (fun a => if a.type = k then ⟨k, v⟩ else a)
  else m ++ [⟨k, v⟩]

/-- Go `delete(m, k)`. -/
def mapDelete (m : List NodeAddress) (k : String) : List NodeAddress :=
  m.filter (fun a => a.type ≠ k)

/-- The seeding loop of `reconcile` (`updater.go` lines 688-691): build
the address map from `currentNode.Status.Addresses`; a later entry of
the same type overwrites an earlier one. -/
def seedMap (addrs : List NodeAddress) : List NodeAddress :=
  addrs.foldl (fun m a => mapInsert m a.type a.address) []

/-- `addressesEqual` (`updater.go` lines 775-799): length check, then
every key of `a`'s map must have the same value in `b`'s map, a missing
key reading as `""` (Go's zero value). -/
def addressesEqual (a b : List NodeAddress) : Bool :=
  if a.length ≠ b.length then false
  else (seedMap a).all (fun p => (mapGet (seedMap b) p.type).getD "" == p.address)

/-- The configuration flags `reconcile` reads:
`--internal-ip-target`, `--external-ip-target`, `--remove-taint`. -/
structure Config where
  internalIPTarget : String
  externalIPTarget : String
  removeTaint : Bool
deriving DecidableEq, Repr

/-- Step 3 of `reconcile` (lines 693-703): if `--internal-ip-target` is
non-empty, resolve it and overwrite the `InternalIP` map entry;
otherwise leave the seeded map untouched. -/
def applyInternal (resolve : String → Except String String) (cfg : Config)
    (m0 : List NodeAddress) : Except String (List NodeAddress) :=
  if cfg.internalIPTarget ≠ "" then
    match resolve cfg.internalIPTarget with
    | .error e => .error e
    | .ok internalIP => .ok (mapInsert m0 NodeInternalIP internalIP)
  else .ok m0

/-- Step 5 of `reconcile` (lines 713-719): if the map's current
`InternalIP` entry equals the detected external IP, delete `ExternalIP`
from the map; otherwise set `ExternalIP` to the detected value. -/
def applyCollision (m1 : List NodeAddress) (ext : String) : List NodeAddress :=
  match mapGet m1 NodeInternalIP with
  | some internalIP =>
      if internalIP = ext then mapDelete m1 NodeExternalIP
      else mapInsert m1 NodeExternalIP ext
  | none => mapInsert m1 NodeExternalIP ext

/-- Steps 2-5 of `reconcile`: the address list the cycle computes from
the fetched addresses and the route-resolution oracle. -/
def computeAddressList (resolve : String → Except String String) (cfg : Config)
    (current : List NodeAddress) : Except String (List NodeAddress) :=
  match applyInternal resolve cfg (seedMap current) with
  | .error e => .error e
  | .ok m1 =>
    match resolve cfg.externalIPTarget with
    | .error e => .error e
    | .ok ext => .ok (applyCollision m1 ext)

/-- The taint-search loop of `RemoveTaint` (`updater.go` lines 98-104):
index of the first taint whose key is `TaintKey`. -/
def taintIndex : List Taint → Option Nat
  | [] => none
  | t :: ts => if t.key = TaintKey then some 0 else (taintIndex ts).map (· + 1)

/-- `RemoveTaint` (`updater.go` lines 88-144): if no taint has
`TaintKey`, return with no patch; otherwise splice out the first such
taint (`append(taints[:i], taints[i+1:]...)`) and patch `/spec/taints`. -/
def RemoveTaint (n : Node) : Node × List Patch :=
  match taintIndex n.taints with
  | none => (n, [])
  | some i =>
    let newTaints := n.taints.take i ++ n.taints.drop (i + 1)
    ({ n with taints := newTaints }, [Patch.setTaints newTaints])

/-- One reconciliation cycle (`main.go` part, lines 678-748): compute
the address list, diff with `addressesEqual` and patch only when
different, then run `RemoveTaint` when `--remove-taint` is set.  The
returned node is the record after all issued patches; an `error` result
models the cycle aborting before any further mutation. -/
def reconcile (resolve : String → Except String String) (cfg : Config)
    (n : Node) : Except String (Node × List Patch) :=
  match computeAddressList resolve cfg n.addresses with
  | .error e => .error e
  | .ok addrs =>
    let n1 : Node := if addressesEqual n.addresses addrs then n
      else { n with addresses := addrs }
    let ps1 : List Patch := if addressesEqual n.addresses addrs then []
      else [Patch.setAddresses addrs]
    if cfg.removeTaint then
      .ok ((RemoveTaint n1).1, ps1 ++ (RemoveTaint n1).2)
    else .ok (n1, ps1)

/-- A netlink route, restricted to the field `DetectIP` reads
(`route.Src`, `none` when the route has no source address). -/
structure Route where
  src : Option String
deriving DecidableEq, Repr

/-- `DetectIP` (`pkg/detector`, lines 178-214), parameterised by the
`net.ParseIP` and `netlink.RouteGet` collaborators: reject the empty
string, reject input that does not parse, propagate route-query
failures, fail on an empty route list or a route without a source
address, and otherwise return the first route's source address. -/
def DetectIP (parse : String → Option String)
    (routeGet : String → Except String (List Route))
    (targetIP : String) : Except String String :=
  if targetIP = "" then .error "target IP is empty"
  else
    match parse targetIP with
    | none => .error ("invalid target IP address: " ++ targetIP)
    | some dstIP =>
      match routeGet dstIP with
      | .error e => .error ("failed to get route to " ++ targetIP ++ ": " ++ e)
      | .ok [] => .error ("no route found to " ++ targetIP)
      | .ok (route :: _) =>
        match route.src with
        | none => .error ("route to " ++ targetIP ++ " has no source IP")
        | some src => .ok src

/-- Address lists with pairwise-distinct types: the shape of every list
the map view faithfully represents. -/
def typesNodup (l : List NodeAddress) : Prop :=
  (l.map NodeAddress.type).Nodup

instance (l : List NodeAddress) : Decidable (typesNodup l) :=
  inferInstanceAs (Decidable (l.map NodeAddress.type).Nodup)

/-! ### Lemmas about the association-list model of the Go address map -/

theorem internal_ne_external : NodeInternalIP ≠ NodeExternalIP := by
  decide

theorem hasType_iff_mem_map (m : List NodeAddress) (k : String) :
    hasType m k = true ↔ k ∈ m.map NodeAddress.type := by
  simp [hasType, List.any_eq_true, List.mem_map]

theorem find?_map_replace_self (m : List NodeAddress) (k v : String)
    (h : hasType m k = true) :
    (m.map (fun a => if a.type = k then ⟨k, v⟩ else a)).find?
      (fun a => a.type = k) = some ⟨k, v⟩ := by
  induction m with
  | nil => simp [hasType] at h
  | cons a m ih =>
    rw [List.map_cons]
    by_cases ha : a.type = k
    · rw [if_pos ha]
      exact List.find?_cons_of_pos _ (by simp)
    · rw [if_neg ha]
      rw [List.find?_cons_of_neg _ (by simpa using ha)]
      have h' : hasType m k = true := by
        simpa [hasType, ha] using h
      exact ih h'

theorem find?_map_replace_ne (m : List NodeAddress) (k v k' : String)
    (h : k' ≠ k) :
    (m.map (fun a => if a.type = k then ⟨k, v⟩ else a)).find?
      (fun a => a.type = k') = m.find? (fun a => a.type = k') := by
  induction m with
  | nil => rfl
  | cons a m ih =>
    rw [List.map_cons]
    by_cases ha : a.type = k
    · have h1 : ¬ a.type = k' := ha ▸ fun he => h he.symm
      rw [if_pos ha]
      rw [List.find?_cons_of_neg _ (by simpa using Ne.symm h)]
      rw [List.find?_cons_of_neg _ (by simpa using h1)]
      exact ih
    · rw [if_neg ha]
      by_cases ha' : a.type = k'
      · rw [List.find?_cons_of_pos _ (by simpa using ha'),
          List.find?_cons_of_pos _ (by simpa using ha')]
      · rw [List.find?_cons_of_neg _ (by simpa using ha'),
          List.find?_cons_of_neg _ (by simpa using ha')]
        exact ih

theorem find?_self_append (m : List NodeAddress) (k v : String)
    (h : hasType m k = false) :
    (m ++ [(⟨k, v⟩ : NodeAddress)]).find? (fun a => a.type = k) =
      some ⟨k, v⟩ := by
  have hnone : m.find? (fun a => a.type = k) = none := by
    rw [List.find?_eq_none]
    intro x hx
    simp only [decide_eq_true_eq]
    intro hxk
    rw [hasType] at h
    have : m.any (fun a => a.type = k) = true :=
      List.any_eq_true.mpr ⟨x, hx, by simpa using hxk⟩
    rw [h] at this
    exact Bool.false_ne_true this
  rw [List.find?_append, hnone]
  simp

theorem mapGet_mapInsert_self (m : List NodeAddress) (k v : String) :
    mapGet (mapInsert m k v) k = some v := by
  rw [mapInsert]
  by_cases h : hasType m k = true
  · rw [if_pos h, mapGet, find?_map_replace_self m k v h]
    rfl
  · rw [if_neg h, mapGet,
      find?_self_append m k v (Bool.eq_false_iff.mpr h)]
    rfl

theorem mapGet_mapInsert_ne (m : List NodeAddress) (k v k' : String)
    (h : k' ≠ k) : mapGet (mapInsert m k v) k' = mapGet m k' := by
  rw [mapInsert]
  split
  · rw [mapGet, find?_map_replace_ne m k v k' h, mapGet]
  · rw [mapGet, List.find?_append, mapGet]
    have : ([(⟨k, v⟩ : NodeAddress)]).find? (fun a => a.type = k') = none := by
      simp [Ne.symm h]
    rw [this, Option.or_none]

theorem mapGet_mapDelete_self (m : List NodeAddress) (k : String) :
    mapGet (mapDelete m k) k = none := by
  have hnone : (mapDelete m k).find? (fun a => a.type = k) = none := by
    rw [List.find?_eq_none]
    intro x hx
    have hm := List.of_mem_filter hx
    simp only [decide_eq_true_eq] at hm ⊢
    exact hm
  rw [mapGet, hnone]
  rfl

theorem find?_filter_ne (m : List NodeAddress) (k k' : String)
    (h : k' ≠ k) :
    (m.filter (fun a => a.type ≠ k)).find? (fun a => a.type = k') =
      m.find? (fun a => a.type = k') := by
  induction m with
  | nil => rfl
  | cons a m ih =>
    by_cases ha : a.type = k
    · have h1 : ¬ a.type = k' := ha ▸ fun he => h he.symm
      rw [List.filter_cons_of_neg (by simpa using ha),
        List.find?_cons_of_neg _ (by simpa using h1)]
      exact ih
    · rw [List.filter_cons_of_pos (by simpa using ha)]
      by_cases ha' : a.type = k'
      · rw [List.find?_cons_of_pos _ (by simpa using ha'),
          List.find?_cons_of_pos _ (by simpa using ha')]
      · rw [List.find?_cons_of_neg _ (by simpa using ha'),
          List.find?_cons_of_neg _ (by simpa using ha')]
        exact ih

theorem mapGet_mapDelete_ne (m : List NodeAddress) (k k' : String)
    (h : k' ≠ k) : mapGet (mapDelete m k) k' = mapGet m k' := by
  rw [mapDelete, mapGet, find?_filter_ne m k k' h, mapGet]

theorem mem_mapInsert_self (m : List NodeAddress) (k v : String) :
    (⟨k, v⟩ : NodeAddress) ∈ mapInsert m k v := by
  rw [mapInsert]
  split
  · rename_i h
    rw [hasType, List.any_eq_true] at h
    obtain ⟨a, ha, hak⟩ := h
    simp only [decide_eq_true_eq] at hak
    exact List.mem_map.mpr ⟨a, ha, by simp [hak]⟩
  · simp

theorem mem_mapInsert_of_ne (m : List NodeAddress) (k v : String)
    (a : NodeAddress) (ha : a ∈ m) (h : a.type ≠ k) :
    a ∈ mapInsert m k v := by
  rw [mapInsert]
  split
  · exact List.mem_map.mpr ⟨a, ha, by simp [h]⟩
  · exact List.mem_append_left _ ha

theorem mem_mapDelete_of_ne (m : List NodeAddress) (k : String)
    (a : NodeAddress) (ha : a ∈ m) (h : a.type ≠ k) :
    a ∈ mapDelete m k := by
  exact List.mem_filter.mpr ⟨ha, by simpa using h⟩

theorem mem_of_mapGet (m : List NodeAddress) (k v : String)
    (h : mapGet m k = some v) : (⟨k, v⟩ : NodeAddress) ∈ m := by
  rw [mapGet] at h
  cases hf : m.find? (fun a => a.type = k) with
  | none => rw [hf] at h; simp at h
  | some a =>
    rw [hf] at h
    simp at h
    have hmem := List.mem_of_find?_eq_some hf
    have hty := List.find?_some hf
    simp only [decide_eq_true_eq] at hty
    have : a = ⟨k, v⟩ := by
      cases a
      simp_all
    rwa [this] at hmem

theorem mapGet_eq_some_of_mem (m : List NodeAddress)
    (hnd : typesNodup m) (a : NodeAddress) (ha : a ∈ m) :
    mapGet m a.type = some a.address := by
  induction m with
  | nil => simp at ha
  | cons b m ih =>
    rw [typesNodup, List.map_cons, List.nodup_cons] at hnd
    rcases List.mem_cons.mp ha with rfl | ha'
    · rw [mapGet, List.find?_cons_of_pos _ (by simp)]
      rfl
    · have hb : b.type ≠ a.type := by
        intro he
        exact hnd.1 (he ▸ List.mem_map.mpr ⟨a, ha', rfl⟩)
      rw [mapGet, List.find?_cons_of_neg _ (by simpa using hb)]
      exact ih hnd.2 ha'

theorem map_type_mapInsert_of_hasType (m : List NodeAddress) (k v : String)
    (h : hasType m k = true) :
    (mapInsert m k v).map NodeAddress.type = m.map NodeAddress.type := by
  rw [mapInsert, if_pos h, List.map_map]
  refine List.map_congr_left ?_
  intro a _
  by_cases ha : a.type = k
  · simp [ha]
  · simp [ha]

theorem typesNodup_mapInsert (m : List NodeAddress) (k v : String)
    (h : typesNodup m) : typesNodup (mapInsert m k v) := by
  by_cases hk : hasType m k = true
  · rw [typesNodup, map_type_mapInsert_of_hasType m k v hk]
    exact h
  · rw [mapInsert, if_neg hk, typesNodup, List.map_append, List.nodup_append]
    refine ⟨h, by simp, ?_⟩
    intro x hx hx'
    simp only [List.map_cons, List.map_nil, List.mem_singleton] at hx'
    subst hx'
    exact hk ((hasType_iff_mem_map m x).mpr hx)

theorem typesNodup_mapDelete (m : List NodeAddress) (k : String)
    (h : typesNodup m) : typesNodup (mapDelete m k) :=
  List.Nodup.sublist (List.Sublist.map _ (List.filter_sublist m)) h

theorem seedMap_go_typesNodup (l : List NodeAddress) :
    ∀ acc : List NodeAddress, typesNodup acc →
      typesNodup (l.foldl (fun m a => mapInsert m a.type a.address) acc) := by
  induction l with
  | nil => intro acc h; exact h
  | cons a l ih =>
    intro acc h
    exact ih _ (typesNodup_mapInsert _ _ _ h)

theorem typesNodup_seedMap (l : List NodeAddress) : typesNodup (seedMap l) :=
  seedMap_go_typesNodup l [] (by simp [typesNodup])

theorem seedMap_go_append (l : List NodeAddress) :
    ∀ acc : List NodeAddress, typesNodup (acc ++ l) →
      l.foldl (fun m a => mapInsert m a.type a.address) acc = acc ++ l := by
  induction l with
  | nil => intro acc _; simp
  | cons a l ih =>
    intro acc h
    have hk : ¬ hasType acc a.type = true := by
      intro hc
      have hmem := (hasType_iff_mem_map acc a.type).mp hc
      rw [typesNodup, List.map_append, List.nodup_append] at h
      exact h.2.2 hmem (by simp)
    have step : mapInsert acc a.type a.address = acc ++ [a] := by
      rw [mapInsert, if_neg hk]
    have h' : typesNodup ((acc ++ [a]) ++ l) := by
      rw [List.append_assoc]
      simpa using h
    calc (a :: l).foldl (fun m a => mapInsert m a.type a.address) acc
        = l.foldl (fun m a => mapInsert m a.type a.address) (acc ++ [a]) := by
          rw [List.foldl_cons, step]
      _ = (acc ++ [a]) ++ l := ih _ h'
      _ = acc ++ a :: l := by rw [List.append_assoc]; rfl

theorem seedMap_eq_self (l : List NodeAddress) (h : typesNodup l) :
    seedMap l = l := by
  have hgo := seedMap_go_append l [] (by simpa using h)
  simpa [seedMap] using hgo

theorem length_mapInsert (m : List NodeAddress) (k v : String) :
    (mapInsert m k v).length =
      if hasType m k = true then m.length else m.length + 1 := by
  rw [mapInsert]
  by_cases h : hasType m k = true
  · rw [if_pos h, if_pos h, List.length_map]
  · rw [if_neg h, if_neg h, List.length_append]
    rfl

theorem mapGet_isSome_iff (m : List NodeAddress) (k : String) :
    (∃ v, mapGet m k = some v) ↔ hasType m k = true := by
  constructor
  · rintro ⟨v, hv⟩
    have hmem := mem_of_mapGet m k v hv
    exact (hasType_iff_mem_map m k).mpr (List.mem_map.mpr ⟨⟨k, v⟩, hmem, rfl⟩)
  · intro h
    rw [hasType, List.any_eq_true] at h
    obtain ⟨a, ha, hk⟩ := h
    simp only [decide_eq_true_eq] at hk
    cases hf : m.find? (fun a => a.type = k) with
    | none =>
      rw [List.find?_eq_none] at hf
      have := hf a ha
      simp only [decide_eq_true_eq] at this
      exact absurd hk this
    | some b => exact ⟨b.address, by rw [mapGet, hf]; rfl⟩

theorem mapInsert_eq_self (m : List NodeAddress) (k v : String)
    (hnd : typesNodup m) (hg : mapGet m k = some v) :
    mapInsert m k v = m := by
  have hk : hasType m k = true := (mapGet_isSome_iff m k).mp ⟨v, hg⟩
  rw [mapInsert, if_pos hk]
  have hpt : ∀ a ∈ m, (if a.type = k then (⟨k, v⟩ : NodeAddress) else a) = a := by
    intro a ha
    by_cases hak : a.type = k
    · rw [if_pos hak]
      have h1 := mapGet_eq_some_of_mem m hnd a ha
      rw [hak, hg] at h1
      cases a
      simp_all
    · rw [if_neg hak]
  rw [List.map_congr_left hpt]
  exact List.map_id m

theorem mapDelete_eq_self (m : List NodeAddress) (k : String)
    (hg : mapGet m k = none) : mapDelete m k = m := by
  rw [mapDelete, List.filter_eq_self]
  intro a ha
  have hf : m.find? (fun a => a.type = k) = none := by
    cases hf : m.find? (fun a => a.type = k) with
    | none => rfl
    | some b => rw [mapGet, hf] at hg; simp at hg
  rw [List.find?_eq_none] at hf
  have h2 := hf a ha
  simp only [decide_eq_true_eq] at h2 ⊢
  exact h2

theorem addressesEqual_self (l : List NodeAddress) (h : typesNodup l) :
    addressesEqual l l = true := by
  rw [addressesEqual, if_neg (by simp)]
  rw [List.all_eq_true]
  intro p hp
  rw [seedMap_eq_self l h] at hp
  simp only [seedMap_eq_self l h]
  rw [mapGet_eq_some_of_mem l h p hp]
  simp

/-! ### Lemmas about `RemoveTaint` and `reconcile` -/

theorem RemoveTaint_addresses (n : Node) :
    (RemoveTaint n).1.addresses = n.addresses := by
  cases h : taintIndex n.taints <;> simp [RemoveTaint, h]

theorem RemoveTaint_no_setAddresses (n : Node) (l : List NodeAddress) :
    Patch.setAddresses l ∉ (RemoveTaint n).2 := by
  cases h : taintIndex n.taints <;> simp [RemoveTaint, h]

theorem taintIndex_eq_none (ts : List Taint)
    (h : ∀ t ∈ ts, t.key ≠ TaintKey) : taintIndex ts = none := by
  induction ts with
  | nil => rfl
  | cons t ts ih =>
    have ht : t.key ≠ TaintKey := h t (List.mem_cons_self t ts)
    have hr := ih (fun u hu => h u (List.mem_cons_of_mem t hu))
    simp [taintIndex, ht, hr]

theorem taintIndex_append (pre : List Taint) (t : Taint) (post : List Taint)
    (hpre : ∀ u ∈ pre, u.key ≠ TaintKey) (ht : t.key = TaintKey) :
    taintIndex (pre ++ t :: post) = some pre.length := by
  induction pre with
  | nil => simp [taintIndex, ht]
  | cons u pre ih =>
    have hu : u.key ≠ TaintKey := hpre u (List.mem_cons_self u pre)
    have hr := ih (fun w hw => hpre w (List.mem_cons_of_mem u hw))
    simp [taintIndex, hu, hr]

theorem RemoveTaint_decomp (n : Node) (pre : List Taint) (t : Taint)
    (post : List Taint) (hn : n.taints = pre ++ t :: post)
    (hpre : ∀ u ∈ pre, u.key ≠ TaintKey) (ht : t.key = TaintKey) :
    RemoveTaint n =
      ({ n with taints := pre ++ post }, [Patch.setTaints (pre ++ post)]) := by
  have hidx : taintIndex n.taints = some pre.length := by
    rw [hn]
    exact taintIndex_append pre t post hpre ht
  have htake : n.taints.take pre.length = pre := by
    rw [hn]
    exact List.take_left pre (t :: post)
  have hdrop : n.taints.drop (pre.length + 1) = post := by
    rw [hn, ← List.drop_drop, List.drop_left]
    rfl
  simp [RemoveTaint, hidx, htake, hdrop]

theorem applyInternal_ok (resolve : String → Except String String)
    (cfg : Config) (m0 m1 : List NodeAddress)
    (h : applyInternal resolve cfg m0 = .ok m1) :
    m1 = m0 ∨ ∃ i, resolve cfg.internalIPTarget = .ok i ∧
      m1 = mapInsert m0 NodeInternalIP i := by
  by_cases hc : cfg.internalIPTarget = ""
  · rw [applyInternal, if_neg (by simp [hc])] at h
    cases h
    exact Or.inl rfl
  · rw [applyInternal, if_pos hc] at h
    cases hr : resolve cfg.internalIPTarget with
    | error e => rw [hr] at h; cases h
    | ok i =>
      rw [hr] at h
      cases h
      exact Or.inr ⟨i, rfl, rfl⟩

theorem computeAddressList_ok (resolve : String → Except String String)
    (cfg : Config) (cur l : List NodeAddress)
    (h : computeAddressList resolve cfg cur = .ok l) :
    ∃ m1 ext, applyInternal resolve cfg (seedMap cur) = .ok m1 ∧
      resolve cfg.externalIPTarget = .ok ext ∧ l = applyCollision m1 ext := by
  rw [computeAddressList] at h
  cases hAI : applyInternal resolve cfg (seedMap cur) with
  | error e => rw [hAI] at h; cases h
  | ok m1 =>
    rw [hAI] at h
    cases hE : resolve cfg.externalIPTarget with
    | error e => rw [hE] at h; cases h
    | ok ext =>
      rw [hE] at h
      cases h
      exact ⟨m1, ext, rfl, rfl, rfl⟩

theorem typesNodup_applyCollision (m1 : List NodeAddress) (ext : String)
    (h : typesNodup m1) : typesNodup (applyCollision m1 ext) := by
  cases hg : mapGet m1 NodeInternalIP with
  | none =>
    simp only [applyCollision, hg]
    exact typesNodup_mapInsert _ _ _ h
  | some i =>
    simp only [applyCollision, hg]
    by_cases hie : i = ext
    · rw [if_pos hie]
      exact typesNodup_mapDelete _ _ h
    · rw [if_neg hie]
      exact typesNodup_mapInsert _ _ _ h

theorem computeAddressList_typesNodup (resolve : String → Except String String)
    (cfg : Config) (cur l : List NodeAddress)
    (h : computeAddressList resolve cfg cur = .ok l) : typesNodup l := by
  obtain ⟨m1, ext, hAI, _, rfl⟩ := computeAddressList_ok resolve cfg cur l h
  have h0 : typesNodup (seedMap cur) := typesNodup_seedMap cur
  rcases applyInternal_ok resolve cfg _ m1 hAI with rfl | ⟨i, _, rfl⟩
  · exact typesNodup_applyCollision _ _ h0
  · exact typesNodup_applyCollision _ _ (typesNodup_mapInsert _ _ _ h0)

theorem taintIndex_some (ts : List Taint) (i : Nat)
    (h : taintIndex ts = some i) :
    ∃ pre t post, ts = pre ++ t :: post ∧ pre.length = i ∧
      t.key = TaintKey ∧ ∀ u ∈ pre, u.key ≠ TaintKey := by
  induction ts generalizing i with
  | nil => cases h
  | cons t ts ih =>
    by_cases ht : t.key = TaintKey
    · simp only [taintIndex, if_pos ht] at h
      cases h
      exact ⟨[], t, ts, rfl, rfl, ht, by simp⟩
    · simp only [taintIndex, if_neg ht] at h
      cases hr : taintIndex ts with
      | none => rw [hr] at h; cases h
      | some j =>
        rw [hr] at h
        simp only [Option.map_some'] at h
        obtain ⟨pre, u, post, hd, hl, hu, hp⟩ := ih j hr
        refine ⟨t :: pre, u, post, by rw [hd, List.cons_append], ?_, hu, ?_⟩
        · rw [List.length_cons, hl]
          exact Option.some.inj h
        · intro w hw
          rcases List.mem_cons.mp hw with rfl | hw'
          · exact ht
          · exact hp w hw'

theorem RemoveTaint_taints_filter (n : Node) :
    (RemoveTaint n).1.taints.filter (fun t => t.key ≠ TaintKey) =
      n.taints.filter (fun t => t.key ≠ TaintKey) := by
  cases hidx : taintIndex n.taints with
  | none => simp [RemoveTaint, hidx]
  | some i =>
    obtain ⟨pre, t, post, hdecomp, hlen, ht, hpre⟩ :=
      taintIndex_some n.taints i hidx
    rw [RemoveTaint_decomp n pre t post hdecomp hpre ht, hdecomp]
    simp only [List.filter_append]
    rw [List.filter_cons_of_neg (by simp [ht])]

theorem reconcile_ok_inv (resolve : String → Except String String)
    (cfg : Config) (n : Node) (n' : Node) (ps : List Patch)
    (h : reconcile resolve cfg n = .ok (n', ps)) :
    ∃ addrs, computeAddressList resolve cfg n.addresses = .ok addrs ∧
      (∀ l, Patch.setAddresses l ∈ ps → l = addrs) ∧
      ((addressesEqual n.addresses addrs = true ∧
          (∀ l, Patch.setAddresses l ∉ ps) ∧ n'.addresses = n.addresses) ∨
        (addressesEqual n.addresses addrs = false ∧
          Patch.setAddresses addrs ∈ ps ∧ n'.addresses = addrs)) ∧
      n'.taints.filter (fun t => t.key ≠ TaintKey) =
        n.taints.filter (fun t => t.key ≠ TaintKey) := by
  cases hC : computeAddressList resolve cfg n.addresses with
  | error e =>
    simp only [reconcile, hC] at h
    exact Except.noConfusion h
  | ok addrs =>
    simp only [reconcile, hC] at h
    refine ⟨addrs, rfl, ?_⟩
    by_cases heq : addressesEqual n.addresses addrs = true
    · simp only [heq, if_true] at h
      cases hrt : cfg.removeTaint with
      | true =>
        rw [hrt] at h
        simp only [if_true, List.nil_append] at h
        injection h with h'
        injection h' with hn hp
        subst hn
        subst hp
        refine ⟨?_, Or.inl ⟨heq, ?_, RemoveTaint_addresses n⟩,
          RemoveTaint_taints_filter n⟩
        · intro l hl
          exact absurd hl (RemoveTaint_no_setAddresses n l)
        · intro l
          exact RemoveTaint_no_setAddresses n l
      | false =>
        rw [hrt] at h
        simp only [Bool.false_eq_true, if_false] at h
        injection h with h'
        injection h' with hn hp
        subst hn
        subst hp
        exact ⟨fun l hl => absurd hl (List.not_mem_nil _),
          Or.inl ⟨heq, fun l => List.not_mem_nil _, rfl⟩, rfl⟩
    · have heqf : addressesEqual n.addresses addrs = false :=
        Bool.eq_false_iff.mpr heq
      simp only [heqf, Bool.false_eq_true, if_false] at h
      cases hrt : cfg.removeTaint with
      | true =>
        rw [hrt] at h
        simp only [if_true, List.singleton_append] at h
        injection h with h'
        injection h' with hn hp
        subst hn
        subst hp
        refine ⟨?_, Or.inr ⟨heqf, List.mem_cons_self _ _, ?_⟩, ?_⟩
        · intro l hl
          rcases List.mem_cons.mp hl with hd | htl
          · injection hd with hd'
          · exact absurd htl (RemoveTaint_no_setAddresses _ l)
        · exact RemoveTaint_addresses { n with addresses := addrs }
        · exact RemoveTaint_taints_filter { n with addresses := addrs }
      | false =>
        rw [hrt] at h
        simp only [Bool.false_eq_true, if_false] at h
        injection h with h'
        injection h' with hn hp
        subst hn
        subst hp
        refine ⟨?_, Or.inr ⟨heqf, List.mem_singleton_self _, rfl⟩, rfl⟩
        intro l hl
        rcases List.mem_singleton.mp hl with hd
        injection hd with hd'

theorem mapGet_none_iff (m : List NodeAddress) (k : String) :
    mapGet m k = none ↔ ∀ a ∈ m, a.type ≠ k := by
  constructor
  · intro h a ha
    have hf : m.find? (fun a => a.type = k) = none := by
      cases hf : m.find? (fun a => a.type = k) with
      | none => rfl
      | some b => rw [mapGet, hf] at h; simp at h
    rw [List.find?_eq_none] at hf
    have h2 := hf a ha
    simpa using h2
  · intro h
    have hf : m.find? (fun a => a.type = k) = none := by
      rw [List.find?_eq_none]
      intro x hx
      simpa using h x hx
    rw [mapGet, hf]
    rfl

/-! ### Concrete oracles used in witnesses and counterexamples -/

/-- An oracle whose routes always have source address 203.0.113.10. -/
def res203 : String → Except String String := fun _ => .ok "203.0.113.10"

/-- An oracle whose routes always have source address 10.0.0.5. -/
def res105 : String → Except String String := fun _ => .ok "10.0.0.5"

/-- An oracle for which every route query fails. -/
def resFail : String → Except String String :=
  fun t => .error ("no route found to " ++ t)

/-- External-IP-only configuration, taint removal off. -/
def cfgExtOnly : Config := ⟨"", "8.8.8.8", false⟩

/-- Configuration with both targets set. -/
def cfgBoth : Config := ⟨"10.0.0.1", "8.8.8.8", true⟩

/-! ### Claim theorems -/

/-- C3: in the reconciliation cycle, once the internal-IP step has
produced the map `m1` and the external target resolves to `ext`, the
computed address list is `applyCollision m1 ext`; if the map's current
InternalIP entry exists and equals `ext`, that list has no ExternalIP
entry at all, and otherwise its ExternalIP entry equals `ext`. -/
theorem collision_rule (resolve : String → Except String String)
    (cfg : Config) (cur m1 : List NodeAddress) (ext : String)
    (hi : applyInternal resolve cfg (seedMap cur) = .ok m1)
    (he : resolve cfg.externalIPTarget = .ok ext) :
    computeAddressList resolve cfg cur = .ok (applyCollision m1 ext) ∧
    (mapGet m1 NodeInternalIP = some ext →
      mapGet (applyCollision m1 ext) NodeExternalIP = none ∧
      ∀ a ∈ applyCollision m1 ext, a.type ≠ NodeExternalIP) ∧
    (mapGet m1 NodeInternalIP ≠ some ext →
      mapGet (applyCollision m1 ext) NodeExternalIP = some ext) := by
  refine ⟨by simp only [computeAddressList, hi, he], ?_, ?_⟩
  · intro hg
    have hdel : applyCollision m1 ext = mapDelete m1 NodeExternalIP := by
      simp only [applyCollision, hg, eq_self_iff_true, if_true]
    rw [hdel]
    refine ⟨mapGet_mapDelete_self m1 NodeExternalIP, ?_⟩
    exact (mapGet_none_iff _ _).mp (mapGet_mapDelete_self m1 NodeExternalIP)
  · intro hg
    cases hgi : mapGet m1 NodeInternalIP with
    | none =>
      simp only [applyCollision, hgi]
      exact mapGet_mapInsert_self m1 NodeExternalIP ext
    | some i =>
      have hie : i ≠ ext := fun hcon => hg (by rw [hgi, hcon])
      simp only [applyCollision, hgi, if_neg hie]
      exact mapGet_mapInsert_self m1 NodeExternalIP ext

/-- Witness for C3: with both targets resolving to 10.0.0.5 on an empty
record, the computed list is InternalIP=10.0.0.5 only, with no
ExternalIP entry. -/
theorem collision_rule_witness :
    computeAddressList res105 cfgBoth [] =
      .ok [⟨NodeInternalIP, "10.0.0.5"⟩] ∧
    mapGet (applyCollision [⟨NodeInternalIP, "10.0.0.5"⟩] "10.0.0.5")
      NodeExternalIP = none := by
  have h := collision_rule res105 cfgBoth [] [⟨NodeInternalIP, "10.0.0.5"⟩]
    "10.0.0.5" rfl rfl
  exact ⟨h.1, (h.2.1 rfl).1⟩

/-- C5: if route resolution for the external target fails, the cycle
returns an error.  In this model an error result carries no patched
node and no patch list, so no address patch is issued, the
marker-removal step is never attempted, and the record is left exactly
as fetched. -/
theorem reconcile_external_failure (resolve : String → Except String String)
    (cfg : Config) (n : Node) (e : String)
    (he : resolve cfg.externalIPTarget = .error e) :
    ∃ msg, reconcile resolve cfg n = .error msg := by
  cases hAI : applyInternal resolve cfg (seedMap n.addresses) with
  | error e2 =>
    refine ⟨e2, ?_⟩
    simp only [reconcile, computeAddressList, hAI]
  | ok m1 =>
    refine ⟨e, ?_⟩
    simp only [reconcile, computeAddressList, hAI, he]

/-- Witness for C5: a failing route oracle makes the whole cycle
fail. -/
theorem reconcile_external_failure_witness :
    ∃ msg, reconcile resFail ⟨"", "8.8.8.8", true⟩
      ⟨[⟨"Hostname", "node1"⟩], [⟨TaintKey, "", "NoSchedule"⟩]⟩ =
        .error msg :=
  reconcile_external_failure resFail ⟨"", "8.8.8.8", true⟩
    ⟨[⟨"Hostname", "node1"⟩], [⟨TaintKey, "", "NoSchedule"⟩]⟩
    ("no route found to " ++ "8.8.8.8") rfl

/-- C7: when no taint on the node carries the uninitialized taint key,
`RemoveTaint` returns success as a pure no-op: the node is unchanged
and no patch is issued. -/
theorem removeTaint_absent_noop (n : Node)
    (h : ∀ t ∈ n.taints, t.key ≠ TaintKey) : RemoveTaint n = (n, []) := by
  have hidx := taintIndex_eq_none n.taints h
  simp [RemoveTaint, hidx]

/-- Witness for C7: removing the taint from a node that only has a
foreign taint writes nothing. -/
theorem removeTaint_absent_noop_witness :
    RemoveTaint ⟨[], [⟨"example.com/other", "", "NoSchedule"⟩]⟩ =
      (⟨[], [⟨"example.com/other", "", "NoSchedule"⟩]⟩, []) :=
  removeTaint_absent_noop ⟨[], [⟨"example.com/other", "", "NoSchedule"⟩]⟩
    (by decide)

/-- C9: every address list the reconciler hands to the address-update
patch has at most one entry per address type, even when the fetched
record's address list contains several entries of the same type. -/
theorem reconcile_written_typesNodup (resolve : String → Except String String)
    (cfg : Config) (n n' : Node) (ps : List Patch) (l : List NodeAddress)
    (h : reconcile resolve cfg n = .ok (n', ps))
    (hl : Patch.setAddresses l ∈ ps) : typesNodup l := by
  obtain ⟨addrs, hC, hall, _, _⟩ := reconcile_ok_inv resolve cfg n n' ps h
  rw [hall l hl]
  exact computeAddressList_typesNodup resolve cfg n.addresses addrs hC

/-- Witness for C9: a record with two Hostname entries leads to a
written list with distinct types. -/
theorem reconcile_written_typesNodup_witness :
    typesNodup [⟨"Hostname", "b"⟩, ⟨NodeExternalIP, "203.0.113.10"⟩] :=
  reconcile_written_typesNodup res203 cfgExtOnly
    ⟨[⟨"Hostname", "a"⟩, ⟨"Hostname", "b"⟩, ⟨NodeExternalIP, "w"⟩], []⟩
    ⟨[⟨"Hostname", "b"⟩, ⟨NodeExternalIP, "203.0.113.10"⟩], []⟩
    [Patch.setAddresses [⟨"Hostname", "b"⟩, ⟨NodeExternalIP, "203.0.113.10"⟩]]
    [⟨"Hostname", "b"⟩, ⟨NodeExternalIP, "203.0.113.10"⟩]
    (by rfl) (List.mem_singleton_self _)

/-- C10: `RemoveTaint` removes only the first taint whose key is the
uninitialized taint key: everything before and after it in the taint
list — including any later taints with the same key — is kept, in its
original order, in the written taint list. -/
theorem removeTaint_first_only (n : Node) (pre : List Taint) (t : Taint)
    (post : List Taint) (hn : n.taints = pre ++ t :: post)
    (hpre : ∀ u ∈ pre, u.key ≠ TaintKey) (ht : t.key = TaintKey) :
    RemoveTaint n =
      ({ n with taints := pre ++ post }, [Patch.setTaints (pre ++ post)]) :=
  RemoveTaint_decomp n pre t post hn hpre ht

/-- Witness for C10: with two uninitialized taints of different effects,
only the first is removed and the second survives in the written
list. -/
theorem removeTaint_first_only_witness :
    RemoveTaint ⟨[], [⟨TaintKey, "", "NoSchedule"⟩, ⟨TaintKey, "", "NoExecute"⟩]⟩ =
      (⟨[], [⟨TaintKey, "", "NoExecute"⟩]⟩,
        [Patch.setTaints [⟨TaintKey, "", "NoExecute"⟩]]) :=
  removeTaint_first_only
    ⟨[], [⟨TaintKey, "", "NoSchedule"⟩, ⟨TaintKey, "", "NoExecute"⟩]⟩
    [] ⟨TaintKey, "", "NoSchedule"⟩ [⟨TaintKey, "", "NoExecute"⟩]
    rfl (by simp) rfl

/-- C8: `DetectIP` returns a source address exactly when the target
parses as an IP and the route query returns a nonempty route list whose
first route has a source address; it fails with an error on malformed
input (given that the empty string never parses, as with
`net.ParseIP`), on a failed or empty route query, and on a route
without a source address — never returning a source address in any of
those cases. -/
theorem detectIP_spec (parse : String → Option String)
    (routeGet : String → Except String (List Route)) (t s : String)
    (hp : parse "" = none) :
    DetectIP parse routeGet t = .ok s ↔
      ∃ dst r rs, parse t = some dst ∧ routeGet dst = .ok (r :: rs) ∧
        r.src = some s := by
  by_cases ht : t = ""
  · subst ht
    rw [DetectIP, if_pos rfl]
    simp [hp]
  · rw [DetectIP, if_neg ht]
    cases hpt : parse t with
    | none => simp
    | some dst =>
      cases hg : routeGet dst with
      | error e => simp [hg]
      | ok routes =>
        cases routes with
        | nil => simp [hg]
        | cons r rs =>
          cases hs : r.src with
          | none => simp [hg, hs]
          | some src => simp [hg, hs, eq_comm]

/-- Concrete parser for the C8 witness: only 1.2.3.4 parses. -/
def parseW : String → Option String :=
  fun x => if x = "1.2.3.4" then some "1.2.3.4" else none

/-- Concrete route oracle for the C8 witness. -/
def routeGetW : String → Except String (List Route) :=
  fun _ => .ok [⟨some "10.0.0.7"⟩]

/-- Witness for C8: on a parsable target with a route carrying a source
address, `DetectIP` returns that source address. -/
theorem detectIP_spec_witness :
    DetectIP parseW routeGetW "1.2.3.4" = .ok "10.0.0.7" :=
  (detectIP_spec parseW routeGetW "1.2.3.4" "10.0.0.7" rfl).mpr
    ⟨"1.2.3.4", ⟨some "10.0.0.7"⟩, [], rfl, rfl, rfl⟩

theorem addressesEqual_length (a b : List NodeAddress)
    (h : addressesEqual a b = true) : a.length = b.length := by
  by_contra hne
  rw [addressesEqual, if_pos hne] at h
  exact Bool.false_ne_true h

theorem addressesEqual_all (a b : List NodeAddress)
    (h : addressesEqual a b = true) :
    ∀ p ∈ seedMap a, (mapGet (seedMap b) p.type).getD "" = p.address := by
  intro p hp
  rw [addressesEqual] at h
  split at h
  · exact absurd h Bool.false_ne_true
  · have h2 := List.all_eq_true.mp h p hp
    simpa using h2

theorem addressesEqual_intro (a b : List NodeAddress)
    (hlen : a.length = b.length)
    (hall : ∀ p ∈ seedMap a, (mapGet (seedMap b) p.type).getD "" = p.address) :
    addressesEqual a b = true := by
  rw [addressesEqual, if_neg (by simp [hlen])]
  rw [List.all_eq_true]
  intro p hp
  simpa using hall p hp

/-- Counterexample to C2 as stated: on a record with two Hostname
entries, a cycle that issues an address update drops the earlier
Hostname entry from the written list (only the last entry of each type
survives the seeded map). -/
theorem preserve_foreign_counterexample :
    reconcile res203 cfgExtOnly
        ⟨[⟨"Hostname", "a"⟩, ⟨"Hostname", "b"⟩, ⟨NodeExternalIP, "w"⟩], []⟩ =
      .ok (⟨[⟨"Hostname", "b"⟩, ⟨NodeExternalIP, "203.0.113.10"⟩], []⟩,
        [Patch.setAddresses
          [⟨"Hostname", "b"⟩, ⟨NodeExternalIP, "203.0.113.10"⟩]]) ∧
    (⟨"Hostname", "a"⟩ : NodeAddress) ∈
      [(⟨"Hostname", "a"⟩ : NodeAddress), ⟨"Hostname", "b"⟩,
        ⟨NodeExternalIP, "w"⟩] ∧
    "Hostname" ≠ NodeInternalIP ∧ "Hostname" ≠ NodeExternalIP ∧
    (⟨"Hostname", "a"⟩ : NodeAddress) ∉
      [(⟨"Hostname", "b"⟩ : NodeAddress),
        ⟨NodeExternalIP, "203.0.113.10"⟩] := by
  refine ⟨by rfl, by simp, by decide, by decide, by decide⟩

/-- C2 (amended): for a record whose address list has at most one entry
per type, every cycle preserves the fields this system does not own:
each foreign-typed address entry appears unchanged in every written
address list, and the taints other than the uninitialized taint survive
the cycle unchanged, in their original order. -/
theorem reconcile_preserves_foreign (resolve : String → Except String String)
    (cfg : Config) (n n' : Node) (ps : List Patch)
    (hnd : typesNodup n.addresses)
    (h : reconcile resolve cfg n = .ok (n', ps)) :
    (∀ l, Patch.setAddresses l ∈ ps → ∀ a ∈ n.addresses,
      a.type ≠ NodeInternalIP → a.type ≠ NodeExternalIP → a ∈ l) ∧
    n'.taints.filter (fun t => t.key ≠ TaintKey) =
      n.taints.filter (fun t => t.key ≠ TaintKey) := by
  obtain ⟨addrs, hC, hall, _, hts⟩ := reconcile_ok_inv resolve cfg n n' ps h
  refine ⟨?_, hts⟩
  intro l hl a ha hint hext
  rw [hall l hl]
  obtain ⟨m1, ext, hAI, hE, rfl⟩ :=
    computeAddressList_ok resolve cfg n.addresses addrs hC
  rw [seedMap_eq_self n.addresses hnd] at hAI
  have ham1 : a ∈ m1 := by
    rcases applyInternal_ok resolve cfg _ m1 hAI with rfl | ⟨i, _, rfl⟩
    · exact ha
    · exact mem_mapInsert_of_ne _ _ _ a ha hint
  cases hgi : mapGet m1 NodeInternalIP with
  | none =>
    simp only [applyCollision, hgi]
    exact mem_mapInsert_of_ne _ _ _ a ham1 hext
  | some i =>
    simp only [applyCollision, hgi]
    by_cases hie : i = ext
    · rw [if_pos hie]
      exact mem_mapDelete_of_ne _ _ a ham1 hext
    · rw [if_neg hie]
      exact mem_mapInsert_of_ne _ _ _ a ham1 hext

/-- Witness for the amended C2: a cycle that writes addresses and
removes the uninitialized taint keeps the Hostname entry and the
foreign taint. -/
theorem reconcile_preserves_foreign_witness :
    (⟨"Hostname", "node1"⟩ : NodeAddress) ∈
      [(⟨"Hostname", "node1"⟩ : NodeAddress),
        ⟨NodeExternalIP, "203.0.113.10"⟩] ∧
    ([(⟨"foreign", "x", "NoExecute"⟩ : Taint)]).filter
        (fun t => t.key ≠ TaintKey) =
      ([(⟨TaintKey, "", "NoSchedule"⟩ : Taint),
        ⟨"foreign", "x", "NoExecute"⟩]).filter (fun t => t.key ≠ TaintKey) := by
  have h := reconcile_preserves_foreign res203 ⟨"", "8.8.8.8", true⟩
    ⟨[⟨"Hostname", "node1"⟩],
      [⟨TaintKey, "", "NoSchedule"⟩, ⟨"foreign", "x", "NoExecute"⟩]⟩
    ⟨[⟨"Hostname", "node1"⟩, ⟨NodeExternalIP, "203.0.113.10"⟩],
      [⟨"foreign", "x", "NoExecute"⟩]⟩
    [Patch.setAddresses
        [⟨"Hostname", "node1"⟩, ⟨NodeExternalIP, "203.0.113.10"⟩],
      Patch.setTaints [⟨"foreign", "x", "NoExecute"⟩]]
    (by decide) (by rfl)
  exact ⟨h.1 _ (List.mem_cons_self _ _) ⟨"Hostname", "node1"⟩
    (List.mem_singleton_self _) (by decide) (by decide), h.2⟩

/-- Counterexample to C6 as stated: with the internal target unset, a
record holding two InternalIP entries loses one of them across a cycle
that writes (the seeded map keeps only the last entry per type), so
reconciliation can remove an existing InternalIP entry. -/
theorem internal_unset_counterexample :
    reconcile res203 cfgExtOnly
        ⟨[⟨NodeInternalIP, "10.0.0.1"⟩, ⟨NodeInternalIP, "10.0.0.2"⟩,
          ⟨NodeExternalIP, "w"⟩], []⟩ =
      .ok (⟨[⟨NodeInternalIP, "10.0.0.2"⟩,
            ⟨NodeExternalIP, "203.0.113.10"⟩], []⟩,
        [Patch.setAddresses [⟨NodeInternalIP, "10.0.0.2"⟩,
          ⟨NodeExternalIP, "203.0.113.10"⟩]]) ∧
    (⟨NodeInternalIP, "10.0.0.1"⟩ : NodeAddress) ∈
      [(⟨NodeInternalIP, "10.0.0.1"⟩ : NodeAddress),
        ⟨NodeInternalIP, "10.0.0.2"⟩, ⟨NodeExternalIP, "w"⟩] ∧
    (⟨NodeInternalIP, "10.0.0.1"⟩ : NodeAddress) ∉
      [(⟨NodeInternalIP, "10.0.0.2"⟩ : NodeAddress),
        ⟨NodeExternalIP, "203.0.113.10"⟩] := by
  refine ⟨by rfl, by simp, by decide⟩

/-- C6 (amended): for a record with at most one entry per address type,
when the internal target is unset the cycle never overwrites or removes
the existing InternalIP entry — including in the collision case where
the detected external IP equals it — and when the detected external IP
differs from it the post-cycle record additionally carries the detected
ExternalIP. -/
theorem reconcile_internal_unset (resolve : String → Except String String)
    (cfg : Config) (n : Node) (E v : String)
    (hnd : typesNodup n.addresses) (hint : cfg.internalIPTarget = "")
    (hE : resolve cfg.externalIPTarget = .ok E)
    (hv : (⟨NodeInternalIP, v⟩ : NodeAddress) ∈ n.addresses) :
    ∃ n' ps, reconcile resolve cfg n = .ok (n', ps) ∧
      (⟨NodeInternalIP, v⟩ : NodeAddress) ∈ n'.addresses ∧
      (v ≠ E → (⟨NodeExternalIP, E⟩ : NodeAddress) ∈ n'.addresses) := by
  have hm0 : seedMap n.addresses = n.addresses := seedMap_eq_self _ hnd
  have hAI : applyInternal resolve cfg (seedMap n.addresses) =
      .ok n.addresses := by
    rw [hm0, applyInternal, if_neg (by simp [hint])]
  have hgv : mapGet n.addresses NodeInternalIP = some v :=
    mapGet_eq_some_of_mem n.addresses hnd ⟨NodeInternalIP, v⟩ hv
  by_cases hveq : v = E
  · -- collision case: ExternalIP is deleted, InternalIP left untouched
    have hl : computeAddressList resolve cfg n.addresses =
        .ok (mapDelete n.addresses NodeExternalIP) := by
      simp only [computeAddressList, hAI, hE, applyCollision, hgv]
      rw [if_pos hveq]
    cases hres : reconcile resolve cfg n with
    | error e =>
      exfalso
      simp only [reconcile, hl] at hres
      split at hres <;> exact Except.noConfusion hres
    | ok p =>
      obtain ⟨n', ps⟩ := p
      refine ⟨n', ps, rfl, ?_, fun hne => absurd hveq hne⟩
      obtain ⟨addrs, hC, _, hdisj, _⟩ :=
        reconcile_ok_inv resolve cfg n n' ps hres
      have haddr : addrs = mapDelete n.addresses NodeExternalIP := by
        have h2 := hC.symm.trans hl
        injection h2
      subst haddr
      rcases hdisj with ⟨_, _, hna⟩ | ⟨_, _, hna⟩
      · rw [hna]
        exact hv
      · rw [hna]
        exact mem_mapDelete_of_ne _ _ _ hv internal_ne_external
  · have hl : computeAddressList resolve cfg n.addresses =
        .ok (mapInsert n.addresses NodeExternalIP E) := by
      simp only [computeAddressList, hAI, hE, applyCollision, hgv,
        if_neg hveq]
    cases hres : reconcile resolve cfg n with
    | error e =>
      exfalso
      simp only [reconcile, hl] at hres
      split at hres <;> exact Except.noConfusion hres
    | ok p =>
      obtain ⟨n', ps⟩ := p
      obtain ⟨addrs, hC, _, hdisj, _⟩ :=
        reconcile_ok_inv resolve cfg n n' ps hres
      have haddr : addrs = mapInsert n.addresses NodeExternalIP E := by
        have h2 := hC.symm.trans hl
        injection h2
      subst haddr
      have hndl : typesNodup (mapInsert n.addresses NodeExternalIP E) :=
        typesNodup_mapInsert _ _ _ hnd
      rcases hdisj with ⟨hq, _, hna⟩ | ⟨_, _, hna⟩
      · refine ⟨n', ps, rfl, by rw [hna]; exact hv, fun _ => ?_⟩
        rw [hna]
        have hlen := addressesEqual_length _ _ hq
        have hht : hasType n.addresses NodeExternalIP = true := by
          by_contra hhf
          have hhf' : hasType n.addresses NodeExternalIP = false :=
            Bool.eq_false_iff.mpr hhf
          have hli := length_mapInsert n.addresses NodeExternalIP E
          rw [hhf'] at hli
          simp at hli
          omega
        obtain ⟨w, hw⟩ :=
          (mapGet_isSome_iff n.addresses NodeExternalIP).mpr hht
        have hmemw := mem_of_mapGet n.addresses NodeExternalIP w hw
        have hallq := addressesEqual_all _ _ hq ⟨NodeExternalIP, w⟩
          (by rw [hm0]; exact hmemw)
        rw [seedMap_eq_self _ hndl] at hallq
        rw [mapGet_mapInsert_self] at hallq
        simp only [Option.getD_some] at hallq
        rw [← hallq] at hmemw
        exact hmemw
      · refine ⟨n', ps, rfl, ?_, fun _ => ?_⟩
        · rw [hna]
          exact mem_mapInsert_of_ne _ _ _ _ hv internal_ne_external
        · rw [hna]
          exact mem_mapInsert_self _ _ _

/-- Witness for the amended C6: internal target unset, record holding
InternalIP 192.168.1.1, external resolving to 203.0.113.10: the
post-cycle record keeps InternalIP 192.168.1.1 and gains ExternalIP
203.0.113.10. -/
theorem reconcile_internal_unset_witness :
    ∃ n' ps, reconcile res203 cfgExtOnly
        ⟨[⟨"Hostname", "node1"⟩, ⟨NodeInternalIP, "192.168.1.1"⟩], []⟩ =
          .ok (n', ps) ∧
      (⟨NodeInternalIP, "192.168.1.1"⟩ : NodeAddress) ∈ n'.addresses ∧
      (⟨NodeExternalIP, "203.0.113.10"⟩ : NodeAddress) ∈ n'.addresses := by
  obtain ⟨n', ps, h1, h2, h3⟩ := reconcile_internal_unset res203 cfgExtOnly
    ⟨[⟨"Hostname", "node1"⟩, ⟨NodeInternalIP, "192.168.1.1"⟩], []⟩
    "203.0.113.10" "192.168.1.1" (by decide) rfl rfl (by simp)
  exact ⟨n', ps, h1, h2, h3 (by decide)⟩

/-- Counterexample to C1 as stated: `addressesEqual` reports two lists
equal that do not denote the same (type, value) set — the first has two
identical Hostname entries and no ExternalIP, the second has an
ExternalIP entry. -/
theorem addressesEqual_counterexample :
    addressesEqual [⟨"Hostname", "n"⟩, ⟨"Hostname", "n"⟩]
        [⟨"Hostname", "n"⟩, ⟨NodeExternalIP, "e"⟩] = true ∧
    ¬ (∀ p : NodeAddress,
        p ∈ [(⟨"Hostname", "n"⟩ : NodeAddress), ⟨"Hostname", "n"⟩] ↔
        p ∈ [(⟨"Hostname", "n"⟩ : NodeAddress), ⟨NodeExternalIP, "e"⟩]) := by
  refine ⟨by decide, ?_⟩
  intro hset
  have h := (hset ⟨NodeExternalIP, "e"⟩).mpr (by decide)
  exact absurd h (by decide)

/-- C1 (amended): on address lists with at most one entry per type and
no empty address value, `addressesEqual` decides exact unordered
(type, value) set equality; and in every completed cycle the address
write is skipped exactly when `addressesEqual` holds between the
fetched and the computed lists. -/
theorem addressesEqual_spec :
    (∀ a b : List NodeAddress, typesNodup a → typesNodup b →
      (∀ p ∈ a, p.address ≠ "") → (∀ p ∈ b, p.address ≠ "") →
      (addressesEqual a b = true ↔ ∀ p : NodeAddress, p ∈ a ↔ p ∈ b)) ∧
    (∀ (resolve : String → Except String String) (cfg : Config)
      (n n' : Node) (ps : List Patch) (l : List NodeAddress),
      reconcile resolve cfg n = .ok (n', ps) →
      computeAddressList resolve cfg n.addresses = .ok l →
      ((∀ lw, Patch.setAddresses lw ∉ ps) ↔
        addressesEqual n.addresses l = true)) := by
  constructor
  · intro a b hna hnb hva _
    have hnda : a.Nodup := List.Nodup.of_map _ hna
    have hndb : b.Nodup := List.Nodup.of_map _ hnb
    constructor
    · intro h
      have hlen := addressesEqual_length a b h
      have hall := addressesEqual_all a b h
      rw [seedMap_eq_self a hna] at hall
      have hsub : ∀ p : NodeAddress, p ∈ a → p ∈ b := by
        intro p hp
        have h1 := hall p hp
        rw [seedMap_eq_self b hnb] at h1
        cases hg : mapGet b p.type with
        | none =>
          rw [hg] at h1
          exact absurd h1.symm (hva p hp)
        | some w =>
          rw [hg] at h1
          simp only [Option.getD_some] at h1
          have hmem := mem_of_mapGet b p.type w hg
          rw [h1] at hmem
          exact hmem
      have hfs : a.toFinset = b.toFinset := by
        apply Finset.eq_of_subset_of_card_le
        · intro x hx
          rw [List.mem_toFinset] at hx ⊢
          exact hsub x hx
        · rw [List.toFinset_card_of_nodup hnda,
            List.toFinset_card_of_nodup hndb]
          omega
      intro p
      have h3 : p ∈ a.toFinset ↔ p ∈ b.toFinset := by rw [hfs]
      simpa [List.mem_toFinset] using h3
    · intro hset
      have hlen : a.length = b.length := by
        have hfs : a.toFinset = b.toFinset := by
          ext x
          rw [List.mem_toFinset, List.mem_toFinset]
          exact hset x
        have hcard := congrArg Finset.card hfs
        rw [List.toFinset_card_of_nodup hnda,
          List.toFinset_card_of_nodup hndb] at hcard
        exact hcard
      apply addressesEqual_intro a b hlen
      intro p hp
      rw [seedMap_eq_self a hna] at hp
      rw [seedMap_eq_self b hnb]
      have hpb : p ∈ b := (hset p).mp hp
      rw [mapGet_eq_some_of_mem b hnb p hpb]
      rfl
  · intro resolve cfg n n' ps l hrec hC
    obtain ⟨addrs, hC', hall, hdisj, _⟩ :=
      reconcile_ok_inv resolve cfg n n' ps hrec
    have haddr : addrs = l := by
      have h2 := hC'.symm.trans hC
      injection h2
    subst haddr
    rcases hdisj with ⟨hq, hnone, _⟩ | ⟨hq, hmem, _⟩
    · exact ⟨fun _ => hq, fun _ => hnone⟩
    · constructor
      · intro hno
        exact absurd hmem (hno addrs)
      · intro hq2
        rw [hq] at hq2
        exact absurd hq2 Bool.false_ne_true


/-- Witness for the amended C1: two equal singleton lists are reported
equal via the set-equality characterisation. -/
theorem addressesEqual_spec_witness :
    addressesEqual [⟨"Hostname", "n"⟩] [⟨"Hostname", "n"⟩] = true :=
  (addressesEqual_spec.1 [⟨"Hostname", "n"⟩] [⟨"Hostname", "n"⟩]
    (by decide) (by decide) (by decide) (by decide)).mpr (fun p => Iff.rfl)

theorem applyInternal_ok_nonempty (resolve : String → Except String String)
    (cfg : Config) (m0 m1 : List NodeAddress)
    (hc : cfg.internalIPTarget ≠ "")
    (h : applyInternal resolve cfg m0 = .ok m1) :
    ∃ i, resolve cfg.internalIPTarget = .ok i ∧
      m1 = mapInsert m0 NodeInternalIP i := by
  rw [applyInternal, if_pos hc] at h
  cases hr : resolve cfg.internalIPTarget with
  | error e => rw [hr] at h; exact Except.noConfusion h
  | ok i =>
    rw [hr] at h
    injection h with h'
    exact ⟨i, rfl, h'.symm⟩

theorem computeAddressList_fixpoint (resolve : String → Except String String)
    (cfg : Config) (cur l : List NodeAddress)
    (h : computeAddressList resolve cfg cur = .ok l) :
    computeAddressList resolve cfg l = .ok l := by
  obtain ⟨m1, ext, hAI, hE, hldef⟩ :=
    computeAddressList_ok resolve cfg cur l h
  have h0 : typesNodup (seedMap cur) := typesNodup_seedMap cur
  have hndm1 : typesNodup m1 := by
    rcases applyInternal_ok resolve cfg _ m1 hAI with rfl | ⟨i, _, rfl⟩
    · exact h0
    · exact typesNodup_mapInsert _ _ _ h0
  have hndl : typesNodup l := by
    rw [hldef]
    exact typesNodup_applyCollision _ _ hndm1
  have hkey : mapGet l NodeInternalIP = mapGet m1 NodeInternalIP ∧
      applyCollision l ext = l := by
    cases hgi : mapGet m1 NodeInternalIP with
    | none =>
      have hl2 : l = mapInsert m1 NodeExternalIP ext := by
        rw [hldef]
        simp only [applyCollision, hgi]
      have hInt : mapGet l NodeInternalIP = none := by
        rw [hl2, mapGet_mapInsert_ne _ _ _ _ internal_ne_external, hgi]
      have hExt : mapGet l NodeExternalIP = some ext := by
        rw [hl2]
        exact mapGet_mapInsert_self _ _ _
      refine ⟨hInt, ?_⟩
      simp only [applyCollision, hInt]
      exact mapInsert_eq_self l NodeExternalIP ext hndl hExt
    | some i =>
      by_cases hie : i = ext
      · have hl2 : l = mapDelete m1 NodeExternalIP := by
          rw [hldef]
          simp only [applyCollision, hgi]
          rw [if_pos hie]
        have hInt : mapGet l NodeInternalIP = some i := by
          rw [hl2, mapGet_mapDelete_ne _ _ _ internal_ne_external, hgi]
        have hExt : mapGet l NodeExternalIP = none := by
          rw [hl2]
          exact mapGet_mapDelete_self _ _
        refine ⟨hInt, ?_⟩
        simp only [applyCollision, hInt]
        rw [if_pos hie]
        exact mapDelete_eq_self l NodeExternalIP hExt
      · have hl2 : l = mapInsert m1 NodeExternalIP ext := by
          rw [hldef]
          simp only [applyCollision, hgi]
          rw [if_neg hie]
        have hInt : mapGet l NodeInternalIP = some i := by
          rw [hl2, mapGet_mapInsert_ne _ _ _ _ internal_ne_external, hgi]
        have hExt : mapGet l NodeExternalIP = some ext := by
          rw [hl2]
          exact mapGet_mapInsert_self _ _ _
        refine ⟨hInt, ?_⟩
        simp only [applyCollision, hInt]
        rw [if_neg hie]
        exact mapInsert_eq_self l NodeExternalIP ext hndl hExt
  have hAI2 : applyInternal resolve cfg (seedMap l) = .ok l := by
    rw [seedMap_eq_self l hndl]
    by_cases hc : cfg.internalIPTarget = ""
    · rw [applyInternal, if_neg (by simp [hc])]
    · obtain ⟨i0, hr, hm⟩ := applyInternal_ok_nonempty resolve cfg _ m1 hc hAI
      have hg1 : mapGet m1 NodeInternalIP = some i0 := by
        rw [hm]
        exact mapGet_mapInsert_self _ _ _
      have hg2 : mapGet l NodeInternalIP = some i0 := by
        rw [hkey.1, hg1]
      rw [applyInternal, if_pos hc, hr]
      simp only [mapInsert_eq_self l NodeInternalIP i0 hndl hg2]
  simp only [computeAddressList, hAI2, hE, hkey.2]

/-- C4: reconciliation is idempotent: if a cycle completes and writes
its computed address list, a second cycle on the resulting record with
the same route-resolution results succeeds and issues no address
write. -/
theorem reconcile_idempotent (resolve : String → Except String String)
    (cfg : Config) (n n1 : Node) (ps1 : List Patch) (l : List NodeAddress)
    (h : reconcile resolve cfg n = .ok (n1, ps1))
    (hw : Patch.setAddresses l ∈ ps1) :
    ∃ n2 ps2, reconcile resolve cfg n1 = .ok (n2, ps2) ∧
      ∀ l2, Patch.setAddresses l2 ∉ ps2 := by
  obtain ⟨addrs, hC, hall, hdisj, _⟩ := reconcile_ok_inv resolve cfg n n1 ps1 h
  have hla : l = addrs := hall l hw
  subst hla
  rcases hdisj with ⟨_, hnone, _⟩ | ⟨_, _, hna⟩
  · exact absurd hw (hnone _)
  · have hndl : typesNodup l :=
      computeAddressList_typesNodup resolve cfg n.addresses l hC
    have hC2 : computeAddressList resolve cfg n1.addresses = .ok l := by
      rw [hna]
      exact computeAddressList_fixpoint resolve cfg n.addresses l hC
    have heq : addressesEqual n1.addresses l = true := by
      rw [hna]
      exact addressesEqual_self l hndl
    cases hrt : cfg.removeTaint with
    | true =>
      refine ⟨(RemoveTaint n1).1, (RemoveTaint n1).2, ?_, ?_⟩
      · simp only [reconcile, hC2, heq, if_true, hrt, List.nil_append]
      · intro l2
        exact RemoveTaint_no_setAddresses n1 l2
    | false =>
      refine ⟨n1, [], ?_, fun l2 => List.not_mem_nil _⟩
      simp only [reconcile, hC2, heq, if_true, hrt, Bool.false_eq_true,
        if_false]

/-- Witness for C4: after the first cycle has written Hostname and
ExternalIP, a second cycle on the written record issues no address
write. -/
theorem reconcile_idempotent_witness :
    ∃ n2 ps2, reconcile res203 cfgExtOnly
        ⟨[⟨"Hostname", "node1"⟩, ⟨NodeExternalIP, "203.0.113.10"⟩], []⟩ =
          .ok (n2, ps2) ∧ ∀ l2, Patch.setAddresses l2 ∉ ps2 :=
  reconcile_idempotent res203 cfgExtOnly ⟨[⟨"Hostname", "node1"⟩], []⟩
    ⟨[⟨"Hostname", "node1"⟩, ⟨NodeExternalIP, "203.0.113.10"⟩], []⟩
    [Patch.setAddresses
      [⟨"Hostname", "node1"⟩, ⟨NodeExternalIP, "203.0.113.10"⟩]]
    [⟨"Hostname", "node1"⟩, ⟨NodeExternalIP, "203.0.113.10"⟩]
    (by rfl) (List.mem_singleton_self _)

end LocalCCM
